import Mathlib

/-!
Verification of the comparative-statistics core of the exhibition-report
generator.

The embedding follows the Python sources `reference_data.py` and
`analysis_engine.py`.  A pandas `DataFrame` is modelled as a fixed list of
column names together with a list of rows; a cell is `Option ℚ`, where
`none` stands for pandas `NaN` (a missing value, an empty cell, or a value
on which `pd.to_numeric(errors="coerce")` failed).  Python floats are
modelled by exact rationals.
-/

namespace ExhibitRef

/-- A cell after numeric coercion: `some q` is a number, `none` is NaN. -/
abbrev Cell := Option ℚ

/-- One exhibition record.  The title column (`전시 제목`) is kept separately
because `load_reference` guarantees it is present and non-empty; all other
columns live in the association list `cells`. -/
structure Row where
  title : String
  cells : List (String × Cell)
  deriving DecidableEq, Repr

/-- Reading a cell: an absent key and a stored `none` are both NaN. -/
def Row.get (r : Row) (c : String) : Cell :=
  match r.cells.lookup c with
  | some v => v
  | none => none

/-- A DataFrame: its column set plus its rows. -/
structure DFrame where
  cols : List String
  rows : List Row
  deriving DecidableEq, Repr

/-- `df[column].dropna()` — the non-missing values of a column, in row order. -/
def DFrame.dropnaCol (df : DFrame) (c : String) : List ℚ :=
  df.rows.filterMap (fun r => r.get c)

/-- The rows where the column is non-missing (`df[column].notna()` mask). -/
def DFrame.validRows (df : DFrame) (c : String) : List Row :=
  df.rows.filter (fun r => (r.get c).isSome)

/-- Maximum of a list of rationals (`series.max()`); 0 on the empty list,
which `compute_stats` never hits (it requires at least two values). -/
def listMax : List ℚ → ℚ
  | [] => 0
  | x :: xs => xs.foldl max x

/-- Minimum of a list of rationals (`series.min()`). -/
def listMin : List ℚ → ℚ
  | [] => 0
  | x :: xs => xs.foldl min x

/-- `series.median()` — pandas takes the middle element, or the mean of the
two middle elements for an even count. -/
def medianOf (l : List ℚ) : ℚ :=
  let s := l.insertionSort (· ≤ ·)
  let n := s.length
  if n = 0 then 0
  else if n % 2 = 1 then s.getD (n / 2) 0
  else (s.getD (n / 2 - 1) 0 + s.getD (n / 2) 0) / 2

/-- `FieldStats` from `reference_data.py`.  The fields `std`, `q25` and
`q75` of the Python dataclass are omitted: the standard deviation is a
square root (not a rational) and no verified claim reads any of the three. -/
structure FieldStats where
  field_name : String
  count : ℕ
  mean : ℚ
  median : ℚ
  min_val : ℚ
  max_val : ℚ
  values : List ℚ
  titles : List String
  deriving DecidableEq, Repr

/-- `compute_stats(df, column)`: `None` when the column is absent or has
fewer than two non-missing values; otherwise the descriptive statistics,
with `values` the non-missing values in row order (pandas:
`df[column].dropna()` and `df.loc[mask, column]` are the same list) and
`titles` the titles of the same rows. -/
def compute_stats (df : DFrame) (column : String) : Option FieldStats :=
  if column ∉ df.cols then none
  else
    let series := df.dropnaCol column
    if series.length < 2 then none
    else
      some {
        field_name := column
        count := series.length
        mean := series.sum / (series.length : ℚ)
        median := medianOf series
        min_val := listMin series
        max_val := listMax series
        values := series
        titles := (df.validRows column).map (·.title) }

/-- A `FieldStats` as `compute_stats` actually produces it: the stored count
matches the value list and is at least two. -/
def FieldStats.available (s : FieldStats) : Prop :=
  s.count = s.values.length ∧ 2 ≤ s.count

theorem length_filterMap_get (l : List Row) (c : String) :
    (l.filterMap (fun r => r.get c)).length
      = (l.filter (fun r => (r.get c).isSome)).length := by
  induction l with
  | nil => rfl
  | cons r t ih =>
    cases h : r.get c <;>
      simp [List.filterMap_cons, List.filter_cons, h, ih]

theorem compute_stats_available {df : DFrame} {c : String} {s : FieldStats}
    (h : compute_stats df c = some s) : s.available := by
  unfold compute_stats at h
  by_cases hc : c ∉ df.cols
  · simp [hc] at h
  · simp only [hc, if_false] at h
    by_cases hlen : (df.dropnaCol c).length < 2
    · simp [hlen] at h
    · simp only [hlen, if_false, Option.some.injEq] at h
      subst h
      exact ⟨rfl, Nat.le_of_not_lt hlen⟩

/-- C1: `compute_stats` is unavailable exactly when the field is absent or
has fewer than two non-missing values, and every produced `FieldStats`
satisfies `count = len(values) = len(titles)`. -/
theorem claim_C1_compute_stats (df : DFrame) (c : String) :
    (compute_stats df c = none ↔
      c ∉ df.cols ∨ (df.dropnaCol c).length < 2) ∧
    (∀ s, compute_stats df c = some s →
      s.count = s.values.length ∧ s.values.length = s.titles.length) := by
  constructor
  · unfold compute_stats
    by_cases hc : c ∉ df.cols
    · simp [hc]
    · by_cases hlen : (df.dropnaCol c).length < 2 <;> simp [hc, hlen]
  · intro s hs
    have hav := compute_stats_available hs
    refine ⟨hav.1, ?_⟩
    unfold compute_stats at hs
    by_cases hc : c ∉ df.cols
    · simp [hc] at hs
    · simp only [hc, if_false] at hs
      by_cases hlen : (df.dropnaCol c).length < 2
      · simp [hlen] at hs
      · simp only [hlen, if_false, Option.some.injEq] at hs
        subst hs
        simpa [DFrame.validRows, DFrame.dropnaCol] using
          length_filterMap_get df.rows c

/-- Concrete witness data: a five-row frame with one numeric column. -/
def dfC1 : DFrame :=
  { cols := ["전시 제목", "총 관객수"]
    rows :=
      [ { title := "A", cells := [("총 관객수", some 100)] }
      , { title := "B", cells := [("총 관객수", some 100)] }
      , { title := "C", cells := [("총 관객수", some 120)] }
      , { title := "D", cells := [("총 관객수", none)] }
      , { title := "E", cells := [("총 관객수", some 150)] } ] }

/-- The value `compute_stats` returns on `dfC1` (checked by `decide`). -/
def statsC1 : FieldStats :=
  { field_name := "총 관객수", count := 4, mean := 235/2, median := 110
    min_val := 100, max_val := 150
    values := [100, 100, 120, 150], titles := ["A", "B", "C", "E"] }

theorem claim_C1_witness :
    statsC1.count = statsC1.values.length ∧
      statsC1.values.length = statsC1.titles.length :=
  (claim_C1_compute_stats dfC1 "총 관객수").2 statsC1 (by
    simp [compute_stats, dfC1, statsC1, DFrame.dropnaCol, DFrame.validRows,
      Row.get, medianOf, listMin, listMax, List.insertionSort,
      List.orderedInsert, List.lookup]
    norm_num)

/-- Python's built-in `round` on an exact rational: nearest integer, ties
broken toward the even integer (banker's rounding). -/
def pyRound (q : ℚ) : ℤ :=
  if q - (⌊q⌋ : ℚ) < 1/2 then ⌊q⌋
  else if 1/2 < q - (⌊q⌋ : ℚ) then ⌊q⌋ + 1
  else if ⌊q⌋ % 2 = 0 then ⌊q⌋ else ⌊q⌋ + 1

theorem floor_le_pyRound (q : ℚ) : ⌊q⌋ ≤ pyRound q := by
  unfold pyRound
  split_ifs <;> omega

theorem pyRound_le_ceil (q : ℚ) : pyRound q ≤ ⌈q⌉ := by
  have hlt : ¬ q - (⌊q⌋ : ℚ) < 1/2 → ⌊q⌋ + 1 ≤ ⌈q⌉ := by
    intro h
    rw [Int.add_one_le_ceil_iff]
    have : (1:ℚ)/2 ≤ q - (⌊q⌋ : ℚ) := le_of_not_lt h
    linarith
  unfold pyRound
  split_ifs with h1 h2 h3
  · exact Int.floor_le_ceil q
  · exact hlt h1
  · exact Int.floor_le_ceil q
  · exact hlt h1

theorem pyRound_nonneg {q : ℚ} (h : 0 ≤ q) : 0 ≤ pyRound q :=
  le_trans (Int.le_floor.mpr (by exact_mod_cast h)) (floor_le_pyRound q)

theorem pyRound_le_of_le {q : ℚ} {B : ℤ} (h : q ≤ (B : ℚ)) : pyRound q ≤ B :=
  le_trans (pyRound_le_ceil q) (Int.ceil_le.mpr h)

/-- `compute_percentile(stats, value)` from `reference_data.py`. -/
def compute_percentile (stats : Option FieldStats) (value : ℚ) : ℤ :=
  match stats with
  | none => 50
  | some s =>
    if s.count = 0 then 50
    else
      let sorted_vals := s.values.insertionSort (· ≤ ·)
      let below := sorted_vals.countP (fun v => decide (v < value))
      let equal := sorted_vals.countP (fun v => decide (v = value))
      pyRound (((below : ℚ) + (equal : ℚ) * (1/2)) / (sorted_vals.length : ℚ) * 100)

theorem countP_add_countP_le_length (l : List ℚ) (p q : ℚ → Bool)
    (hdis : ∀ x ∈ l, ¬(p x = true ∧ q x = true)) :
    l.countP p + l.countP q ≤ l.length := by
  induction l with
  | nil => simp
  | cons a t ih =>
    have ht : ∀ x ∈ t, ¬(p x = true ∧ q x = true) := by
      intro x hx
      exact hdis x (List.mem_cons_of_mem a hx)
    have ha := hdis a (List.mem_cons_self a t)
    have hiht := ih ht
    rw [List.countP_cons, List.countP_cons]
    by_cases hp : p a = true <;> by_cases hq : q a = true <;>
      simp [hp, hq] at ha ⊢ <;> omega

/-- C2: on an available `FieldStats`, `compute_percentile` is the
midpoint-rank formula `(below + 0.5·equal) / total × 100` put through
Python's `round`, and the result lies in `[0, 100]`; on an unavailable
stats it is the neutral default 50. -/
theorem claim_C2_compute_percentile (s : FieldStats) (hs : s.available)
    (value : ℚ) :
    compute_percentile none value = 50 ∧
    compute_percentile (some s) value =
      pyRound ((((s.values.countP (fun v => decide (v < value))) : ℚ) +
        ((s.values.countP (fun v => decide (v = value))) : ℚ) * (1/2))
          / (s.count : ℚ) * 100) ∧
    0 ≤ compute_percentile (some s) value ∧
    compute_percentile (some s) value ≤ 100 := by
  obtain ⟨hcnt, h2⟩ := hs
  have hne : ¬ s.count = 0 := by omega
  have hperm : (s.values.insertionSort (· ≤ ·)).Perm s.values :=
    List.perm_insertionSort (· ≤ ·) s.values
  have hlen : (s.values.insertionSort (· ≤ ·)).length = s.count := by
    rw [hperm.length_eq, hcnt]
  have hbelow : (s.values.insertionSort (· ≤ ·)).countP
      (fun v => decide (v < value)) = s.values.countP (fun v => decide (v < value)) :=
    hperm.countP_eq _
  have hequal : (s.values.insertionSort (· ≤ ·)).countP
      (fun v => decide (v = value)) = s.values.countP (fun v => decide (v = value)) :=
    hperm.countP_eq _
  have heq : compute_percentile (some s) value =
      pyRound ((((s.values.countP (fun v => decide (v < value))) : ℚ) +
        ((s.values.countP (fun v => decide (v = value))) : ℚ) * (1/2))
          / (s.count : ℚ) * 100) := by
    simp only [compute_percentile, hne, if_false, hbelow, hequal, hlen]
  refine ⟨rfl, heq, ?_, ?_⟩
  · rw [heq]
    apply pyRound_nonneg
    have hn : (0:ℚ) < (s.count : ℚ) := by
      exact_mod_cast Nat.pos_of_ne_zero hne
    positivity
  · rw [heq]
    apply pyRound_le_of_le
    have hn : (0:ℚ) < (s.count : ℚ) := by
      exact_mod_cast Nat.pos_of_ne_zero hne
    set b := s.values.countP (fun v => decide (v < value)) with hb
    set e := s.values.countP (fun v => decide (v = value)) with he
    have hsum : b + e ≤ s.count := by
      rw [hcnt]
      apply countP_add_countP_le_length
      intro x _ hx
      obtain ⟨h1, h2'⟩ := hx
      simp at h1 h2'
      exact absurd h2' (ne_of_lt h1)
    have hnum : ((b : ℚ) + (e : ℚ) * (1/2)) ≤ (s.count : ℚ) := by
      have : ((b : ℚ) + (e : ℚ)) ≤ (s.count : ℚ) := by exact_mod_cast hsum
      have he0 : (0:ℚ) ≤ (e : ℚ) := by positivity
      linarith
    have hdiv : ((b : ℚ) + (e : ℚ) * (1/2)) / (s.count : ℚ) ≤ 1 :=
      (div_le_one hn).mpr hnum
    calc ((b : ℚ) + (e : ℚ) * (1/2)) / (s.count : ℚ) * 100
        ≤ 1 * 100 := by
          apply mul_le_mul_of_nonneg_right hdiv (by norm_num)
      _ = ((100 : ℤ) : ℚ) := by norm_num

theorem claim_C2_witness :
    0 ≤ compute_percentile (some statsC1) 130 ∧
      compute_percentile (some statsC1) 130 ≤ 100 := by
  have h := claim_C2_compute_percentile statsC1 ⟨rfl, by decide⟩ 130
  exact ⟨h.2.2.1, h.2.2.2⟩

/-- Index of the first element satisfying `p`, mirroring the Python
`for i, v in enumerate(...)` search loops of `compute_rank`. -/
def firstIdxFrom (p : ℚ → Bool) : List ℚ → Option ℕ
  | [] => none
  | v :: rest => if p v then some 0 else (firstIdxFrom p rest).map (· + 1)

theorem firstIdxFrom_lt_length {p : ℚ → Bool} :
    ∀ {l : List ℚ} {i : ℕ}, firstIdxFrom p l = some i → i < l.length := by
  intro l
  induction l with
  | nil => intro i h; simp [firstIdxFrom] at h
  | cons a t ih =>
    intro i h
    by_cases hp : p a = true
    · simp [firstIdxFrom, hp] at h
      simp only [List.length_cons]
      omega
    · simp [firstIdxFrom, hp] at h
      obtain ⟨j, hj, rfl⟩ := h
      have := ih hj
      simp only [List.length_cons]
      omega

theorem firstIdxFrom_eq_none {p : ℚ → Bool} {l : List ℚ}
    (h : ∀ v ∈ l, p v = false) : firstIdxFrom p l = none := by
  induction l with
  | nil => rfl
  | cons a t ih =>
    have ha := h a (List.mem_cons_self a t)
    have ht : ∀ v ∈ t, p v = false := fun v hv => h v (List.mem_cons_of_mem a hv)
    simp [firstIdxFrom, ha, ih ht]

theorem firstIdxFrom_eq_some {p : ℚ → Bool} :
    ∀ {l : List ℚ} {i : ℕ}, i < l.length → p (l.getD i 0) = true →
      (∀ j, j < i → p (l.getD j 0) = false) → firstIdxFrom p l = some i := by
  intro l
  induction l with
  | nil => intro i hi; simp at hi
  | cons a t ih =>
    intro i hi hp hmin
    cases i with
    | zero =>
      simp only [List.getD_cons_zero] at hp
      simp [firstIdxFrom, hp]
    | succ n =>
      have h0 : p a = false := by
        have := hmin 0 (Nat.succ_pos n)
        simpa using this
      have hn : n < t.length := by simpa using hi
      have hpn : p (t.getD n 0) = true := by simpa using hp
      have hminn : ∀ j, j < n → p (t.getD j 0) = false := by
        intro j hj
        have := hmin (j + 1) (by omega)
        simpa using this
      simp [firstIdxFrom, h0, ih hn hpn hminn]

/-- The rank produced by a first-index search: `i + 1` when found, else
`n + 1` (the Python fallthrough `return len(sorted_vals) + 1`). -/
def loopRank (r : Option ℕ) (n : ℕ) : ℕ :=
  match r with
  | some i => i + 1
  | none => n + 1

/-- The Python fallthrough `for`-loop of `compute_rank`: first index where
the strict-order comparison succeeds, else `len + 1`. -/
theorem secondLoop_eq_countP (l : List ℚ) (p q : ℚ → Bool)
    (hpq : ∀ v, p v = !q v)
    (hl : l.Pairwise (fun a b => p a = true → p b = true)) :
    loopRank (firstIdxFrom p l) l.length = l.countP q + 1 := by
  induction l with
  | nil => simp [firstIdxFrom, loopRank]
  | cons a t ih =>
    rw [List.pairwise_cons] at hl
    obtain ⟨hall, ht⟩ := hl
    have hthis := ih ht
    by_cases hp : p a = true
    · have hqa : q a = false := by
        have h2 := hpq a
        rw [hp] at h2
        cases hq : q a
        · rfl
        · rw [hq] at h2; simp at h2
      have hcnt : t.countP q = 0 := by
        rw [List.countP_eq_zero]
        intro v hv
        have hpv := hall v hv hp
        have h2 := hpq v
        rw [hpv] at h2
        cases hqv : q v
        · simp
        · rw [hqv] at h2; simp at h2
      simp [firstIdxFrom, hp, List.countP_cons, hqa, hcnt, loopRank]
    · have hpa : p a = false := by
        cases hpv : p a
        · rfl
        · exact absurd hpv hp
      have hqa : q a = true := by
        have h2 := hpq a
        rw [hpa] at h2
        cases hq : q a
        · rw [hq] at h2; simp at h2
        · rfl
      cases hfi : firstIdxFrom p t with
      | none =>
        rw [hfi] at hthis
        simp only [loopRank, List.length_cons] at hthis ⊢
        simp [firstIdxFrom, hpa, hfi, List.countP_cons, hqa, loopRank]
        omega
      | some i =>
        rw [hfi] at hthis
        simp only [loopRank] at hthis
        simp [firstIdxFrom, hpa, hfi, List.countP_cons, hqa, loopRank]
        omega

theorem foldl_max_spec (xs : List ℚ) (x : ℚ) :
    (xs.foldl max x = x ∨ xs.foldl max x ∈ xs) ∧
      x ≤ xs.foldl max x ∧ ∀ y ∈ xs, y ≤ xs.foldl max x := by
  induction xs generalizing x with
  | nil => simp
  | cons a t ih =>
    obtain ⟨hmem, hle, hall⟩ := ih (max x a)
    refine ⟨?_, ?_, ?_⟩
    · rcases hmem with h | h
      · rcases max_choice x a with hx | ha
        · left; rw [List.foldl_cons, h, hx]
        · right; rw [List.foldl_cons, h, ha]; exact List.mem_cons_self a t
      · right; exact List.mem_cons_of_mem a h
    · exact le_trans (le_max_left x a) hle
    · intro y hy
      rcases List.mem_cons.mp hy with rfl | hy
      · exact le_trans (le_max_right x y) hle
      · exact hall y hy

theorem foldl_min_spec (xs : List ℚ) (x : ℚ) :
    (xs.foldl min x = x ∨ xs.foldl min x ∈ xs) ∧
      xs.foldl min x ≤ x ∧ ∀ y ∈ xs, xs.foldl min x ≤ y := by
  induction xs generalizing x with
  | nil => simp
  | cons a t ih =>
    obtain ⟨hmem, hle, hall⟩ := ih (min x a)
    refine ⟨?_, ?_, ?_⟩
    · rcases hmem with h | h
      · rcases min_choice x a with hx | ha
        · left; rw [List.foldl_cons, h, hx]
        · right; rw [List.foldl_cons, h, ha]; exact List.mem_cons_self a t
      · right; exact List.mem_cons_of_mem a h
    · exact le_trans hle (min_le_left x a)
    · intro y hy
      rcases List.mem_cons.mp hy with rfl | hy
      · exact le_trans hle (min_le_right x y)
      · exact hall y hy

theorem listMax_mem {l : List ℚ} (h : l ≠ []) : listMax l ∈ l := by
  cases l with
  | nil => exact absurd rfl h
  | cons a t =>
    rcases (foldl_max_spec t a).1 with h1 | h1
    · rw [listMax, h1]; exact List.mem_cons_self a t
    · exact List.mem_cons_of_mem a h1

theorem le_listMax {l : List ℚ} {x : ℚ} (h : x ∈ l) : x ≤ listMax l := by
  cases l with
  | nil => simp at h
  | cons a t =>
    rcases List.mem_cons.mp h with rfl | hx
    · exact (foldl_max_spec t x).2.1
    · exact (foldl_max_spec t a).2.2 x hx

theorem listMin_mem {l : List ℚ} (h : l ≠ []) : listMin l ∈ l := by
  cases l with
  | nil => exact absurd rfl h
  | cons a t =>
    rcases (foldl_min_spec t a).1 with h1 | h1
    · rw [listMin, h1]; exact List.mem_cons_self a t
    · exact List.mem_cons_of_mem a h1

theorem listMin_le {l : List ℚ} {x : ℚ} (h : x ∈ l) : listMin l ≤ x := by
  cases l with
  | nil => simp at h
  | cons a t =>
    rcases List.mem_cons.mp h with rfl | hx
    · exact (foldl_min_spec t x).2.1
    · exact (foldl_min_spec t a).2.2 x hx

/-- The near-match test of `compute_rank`'s first loop:
`abs(v - value) < 0.01 or v == value`. -/
def nearPred (value : ℚ) : ℚ → Bool :=
  fun v => decide (|v - value| < 1/100 ∨ v = value)

/-- The strict-order test of `compute_rank`'s second loop:
`(not ascending and value > v) or (ascending and value < v)`. -/
def strictPred (value : ℚ) (ascending : Bool) : ℚ → Bool :=
  fun v => if ascending then decide (value < v) else decide (value > v)

/-- The sorted copy of the values `compute_rank` searches:
`sorted(stats.values)` when ascending, `sorted(..., reverse=True)` else. -/
def rankSorted (s : FieldStats) (ascending : Bool) : List ℚ :=
  if ascending then s.values.insertionSort (· ≤ ·)
  else s.values.insertionSort (· ≥ ·)

/-- `compute_rank(stats, value, ascending)` from `reference_data.py`:
0 when stats is unavailable; otherwise the first loop returns `i + 1` for
the first near-exact match in the sorted list, the second loop the first
strict-order insertion position, and the fallthrough `len + 1`. -/
def compute_rank (stats : Option FieldStats) (value : ℚ)
    (ascending : Bool) : ℕ :=
  match stats with
  | none => 0
  | some s =>
    if s.count = 0 then 0
    else
      match firstIdxFrom (nearPred value) (rankSorted s ascending) with
      | some i => i + 1
      | none =>
        loopRank (firstIdxFrom (strictPred value ascending) (rankSorted s ascending))
          (rankSorted s ascending).length

theorem rankSorted_perm (s : FieldStats) (asc : Bool) :
    (rankSorted s asc).Perm s.values := by
  cases asc
  · simpa [rankSorted] using List.perm_insertionSort (· ≥ ·) s.values
  · simpa [rankSorted] using List.perm_insertionSort (· ≤ ·) s.values

theorem rankSorted_sorted_desc (s : FieldStats) :
    List.Sorted (· ≥ ·) (rankSorted s false) := by
  simpa [rankSorted] using List.sorted_insertionSort (· ≥ ·) s.values

theorem rankSorted_sorted_asc (s : FieldStats) :
    List.Sorted (· ≤ ·) (rankSorted s true) := by
  simpa [rankSorted] using List.sorted_insertionSort (· ≤ ·) s.values

/-- C3: `compute_rank` is 0 on unavailable stats; ranks the maximum first
for `ascending=False` and the minimum first for `ascending=True`; returns a
rank in `[1, count+1]`; gives a near match (absolute difference < 0.01)
the rank of its first sorted position; and on a value matching nothing
returns the strict-ordering insertion position, `count + 1` when the value
sorts beyond every observed value. -/
theorem claim_C3_compute_rank (s : FieldStats) (hs : s.available)
    (value : ℚ) (asc : Bool) :
    compute_rank none value asc = 0 ∧
    compute_rank (some s) (listMax s.values) false = 1 ∧
    compute_rank (some s) (listMin s.values) true = 1 ∧
    (1 ≤ compute_rank (some s) value asc ∧
      compute_rank (some s) value asc ≤ s.count + 1) ∧
    (∀ i, i < (rankSorted s asc).length →
      nearPred value ((rankSorted s asc).getD i 0) = true →
      (∀ j, j < i → nearPred value ((rankSorted s asc).getD j 0) = false) →
      compute_rank (some s) value asc = i + 1) ∧
    ((∀ v ∈ s.values, ¬(|v - value| < 1/100 ∨ v = value)) →
      compute_rank (some s) value asc =
        (if asc then s.values.countP (fun v => decide (v ≤ value))
         else s.values.countP (fun v => decide (v ≥ value))) + 1) := by
  obtain ⟨hcv, h2⟩ := hs
  have hcnt0 : ¬ s.count = 0 := by omega
  have hvne : s.values ≠ [] := by
    intro h
    rw [h] at hcv
    simp at hcv
    omega
  refine ⟨rfl, ?_, ?_, ?_, ?_, ?_⟩
  · -- maximum ranks first when descending
    have hlen : (rankSorted s false).length = s.values.length :=
      (rankSorted_perm s false).length_eq
    have hne : rankSorted s false ≠ [] := by
      intro h
      rw [h] at hlen
      exact hvne (List.length_eq_zero.mp hlen.symm)
    obtain ⟨a, t, hl⟩ : ∃ a t, rankSorted s false = a :: t := by
      cases hmatch : rankSorted s false with
      | nil => exact absurd hmatch hne
      | cons a t => exact ⟨a, t, rfl⟩
    have hmem : a ∈ s.values := (rankSorted_perm s false).mem_iff.mp (hl ▸ List.mem_cons_self a t)
    have hmax_mem : listMax s.values ∈ rankSorted s false :=
      (rankSorted_perm s false).mem_iff.mpr (listMax_mem hvne)
    have hsorted := rankSorted_sorted_desc s
    rw [hl] at hsorted hmax_mem
    have hge : a ≥ listMax s.values := by
      rcases List.mem_cons.mp hmax_mem with hcase | hcase
      · rw [hcase]
      · exact (List.sorted_cons.mp hsorted).1 _ hcase
    have hamax : a = listMax s.values := le_antisymm (le_listMax hmem) hge
    have hfind : firstIdxFrom (nearPred (listMax s.values)) (rankSorted s false) = some 0 := by
      apply firstIdxFrom_eq_some
      · rw [hl]; simp
      · rw [hl]
        simp only [List.getD_cons_zero, nearPred]
        simp [hamax]
      · intro j hj; omega
    simp [compute_rank, hcnt0, hfind]
  · -- minimum ranks first when ascending
    have hlen : (rankSorted s true).length = s.values.length :=
      (rankSorted_perm s true).length_eq
    have hne : rankSorted s true ≠ [] := by
      intro h
      rw [h] at hlen
      exact hvne (List.length_eq_zero.mp hlen.symm)
    obtain ⟨a, t, hl⟩ : ∃ a t, rankSorted s true = a :: t := by
      cases hmatch : rankSorted s true with
      | nil => exact absurd hmatch hne
      | cons a t => exact ⟨a, t, rfl⟩
    have hmem : a ∈ s.values := (rankSorted_perm s true).mem_iff.mp (hl ▸ List.mem_cons_self a t)
    have hmin_mem : listMin s.values ∈ rankSorted s true :=
      (rankSorted_perm s true).mem_iff.mpr (listMin_mem hvne)
    have hsorted := rankSorted_sorted_asc s
    rw [hl] at hsorted hmin_mem
    have hle : a ≤ listMin s.values := by
      rcases List.mem_cons.mp hmin_mem with hcase | hcase
      · rw [hcase]
      · exact (List.sorted_cons.mp hsorted).1 _ hcase
    have hamin : a = listMin s.values := le_antisymm hle (listMin_le hmem)
    have hfind : firstIdxFrom (nearPred (listMin s.values)) (rankSorted s true) = some 0 := by
      apply firstIdxFrom_eq_some
      · rw [hl]; simp
      · rw [hl]
        simp only [List.getD_cons_zero, nearPred]
        simp [hamin]
      · intro j hj; omega
    simp [compute_rank, hcnt0, hfind]
  · -- the rank always lies in [1, count + 1]
    have hlen : (rankSorted s asc).length = s.count := by
      rw [(rankSorted_perm s asc).length_eq, hcv]
    cases hfi : firstIdxFrom (nearPred value) (rankSorted s asc) with
    | some i =>
      have hi := firstIdxFrom_lt_length hfi
      rw [hlen] at hi
      simp [compute_rank, hcnt0, hfi]
      omega
    | none =>
      cases hfi2 : firstIdxFrom (strictPred value asc) (rankSorted s asc) with
      | some i =>
        have hi := firstIdxFrom_lt_length hfi2
        rw [hlen] at hi
        simp [compute_rank, hcnt0, hfi, hfi2, loopRank]
        omega
      | none =>
        simp [compute_rank, hcnt0, hfi, hfi2, loopRank, hlen]
  · -- a near match takes the rank of its first sorted position
    intro i hi hp hmin
    have hfind : firstIdxFrom (nearPred value) (rankSorted s asc) = some i :=
      firstIdxFrom_eq_some hi hp hmin
    simp [compute_rank, hcnt0, hfind]
  · -- with no near match, the rank is the strict insertion position
    intro hno
    have hnone : firstIdxFrom (nearPred value) (rankSorted s asc) = none := by
      apply firstIdxFrom_eq_none
      intro v hv
      have hv' : v ∈ s.values := (rankSorted_perm s asc).mem_iff.mp hv
      simp only [nearPred, decide_eq_false_iff_not]
      exact hno v hv'
    cases asc
    · have hsl := secondLoop_eq_countP (rankSorted s false)
        (strictPred value false) (fun v => decide (v ≥ value))
        (by
          intro v
          by_cases h : value > v
          · have : ¬ v ≥ value := not_le.mpr h
            simp [strictPred, h, this]
          · have : v ≥ value := le_of_not_lt h
            simp [strictPred, h, this])
        (by
          apply List.Pairwise.imp _ (rankSorted_sorted_desc s)
          intro a b hab hpa
          simp only [strictPred, if_neg Bool.false_ne_true, decide_eq_true_eq] at hpa ⊢
          exact lt_of_le_of_lt hab hpa)
      rw [((rankSorted_perm s false).countP_eq _)] at hsl
      simp [compute_rank, hcnt0, hnone, hsl]
    · have hsl := secondLoop_eq_countP (rankSorted s true)
        (strictPred value true) (fun v => decide (v ≤ value))
        (by
          intro v
          by_cases h : value < v
          · have : ¬ v ≤ value := not_le.mpr h
            simp [strictPred, h, this]
          · have : v ≤ value := le_of_not_lt h
            simp [strictPred, h, this])
        (by
          apply List.Pairwise.imp _ (rankSorted_sorted_asc s)
          intro a b hab hpa
          simp only [strictPred, if_true, decide_eq_true_eq] at hpa ⊢
          exact lt_of_lt_of_le hpa hab)
      rw [((rankSorted_perm s true).countP_eq _)] at hsl
      simp [compute_rank, hcnt0, hnone, hsl]

theorem claim_C3_witness :
    compute_rank (some statsC1) (listMax statsC1.values) false = 1 ∧
      1 ≤ compute_rank (some statsC1) 130 false ∧
      compute_rank (some statsC1) 130 false ≤ statsC1.count + 1 := by
  have h := claim_C3_compute_rank statsC1 ⟨rfl, by decide⟩ 130 false
  exact ⟨h.2.1, h.2.2.2.1.1, h.2.2.2.1.2⟩

/-- The exhibition-type column (`전시 유형`). -/
def EXHIBITION_TYPE_COL : String := "전시 유형"

/-- Pandas boolean-mask row selection `df[mask]`: keeps the column set. -/
def DFrame.filterRows (df : DFrame) (p : Row → Bool) : DFrame :=
  { cols := df.cols, rows := df.rows.filter p }

/-- `exclude_type_zero(df)`: keep the rows whose coerced type is not 0.
In pandas, `pd.to_numeric(df[col], errors="coerce") != 0` is `True` for a
NaN cell, so rows whose type is missing or fails numeric coercion (both
`none` here) are retained. -/
def exclude_type_zero (df : DFrame) : DFrame :=
  if EXHIBITION_TYPE_COL ∉ df.cols then df
  else df.filterRows (fun r => decide (r.get EXHIBITION_TYPE_COL ≠ some 0))

/-- The `exhibition_type` argument of `filter_by_type`: Python `None`, a
value on which `float()` raises, or a numeric value. -/
inductive ExType where
  | null
  | unparseable
  | num (q : ℚ)
  deriving DecidableEq, Repr

/-- `filter_by_type(df, exhibition_type)`: always excludes type 0; returns
the type-0-excluded table when the argument is `None` or unparseable or
the column is missing, and otherwise the rows matching the coerced target,
falling back to the type-0-excluded table when fewer than 3 match.
(A NaN type cell never equals the numeric target, as in pandas.) -/
def filter_by_type (df : DFrame) (exhibition_type : ExType) : DFrame :=
  let df0 := exclude_type_zero df
  match exhibition_type with
  | .null => df0
  | .unparseable => df0
  | .num target =>
    if EXHIBITION_TYPE_COL ∉ df0.cols then df0
    else
      let filtered := df0.filterRows (fun r => decide (r.get EXHIBITION_TYPE_COL = some target))
      if filtered.rows.length < 3 then df0
      else filtered

/-- Unfolding of `filter_by_type` at a numeric argument. -/
theorem filter_by_type_num (df : DFrame) (target : ℚ) :
    filter_by_type df (.num target) =
      (if EXHIBITION_TYPE_COL ∉ (exclude_type_zero df).cols
       then exclude_type_zero df
       else if ((exclude_type_zero df).filterRows
            (fun r => decide (r.get EXHIBITION_TYPE_COL = some target))).rows.length < 3
         then exclude_type_zero df
         else (exclude_type_zero df).filterRows
            (fun r => decide (r.get EXHIBITION_TYPE_COL = some target))) :=
  rfl

theorem exclude_type_zero_cols (df : DFrame) :
    (exclude_type_zero df).cols = df.cols := by
  unfold exclude_type_zero
  split <;> rfl

theorem mem_exclude_type_zero {df : DFrame} {r : Row}
    (hcol : EXHIBITION_TYPE_COL ∈ df.cols)
    (hr : r ∈ (exclude_type_zero df).rows) :
    r.get EXHIBITION_TYPE_COL ≠ some 0 := by
  unfold exclude_type_zero at hr
  rw [if_neg (by simpa using hcol)] at hr
  simp only [DFrame.filterRows, List.mem_filter, decide_eq_true_eq] at hr
  exact hr.2

/-- C10: when the type column exists, `exclude_type_zero` keeps exactly the
rows whose type cell is not the number 0 (missing / uncoercible cells are
`none ≠ some 0`, hence retained); without the column the table is
unchanged. -/
theorem claim_C10_exclude_type_zero (df : DFrame) :
    (EXHIBITION_TYPE_COL ∈ df.cols →
      (exclude_type_zero df).rows =
        df.rows.filter (fun r => decide (r.get EXHIBITION_TYPE_COL ≠ some 0))) ∧
    (EXHIBITION_TYPE_COL ∈ df.cols →
      ∀ r, r ∈ (exclude_type_zero df).rows ↔
        r ∈ df.rows ∧ r.get EXHIBITION_TYPE_COL ≠ some 0) ∧
    (EXHIBITION_TYPE_COL ∉ df.cols → exclude_type_zero df = df) := by
  refine ⟨?_, ?_, ?_⟩
  · intro hcol
    unfold exclude_type_zero
    rw [if_neg (by simpa using hcol)]
    rfl
  · intro hcol r
    unfold exclude_type_zero
    rw [if_neg (by simpa using hcol)]
    simp [DFrame.filterRows, List.mem_filter]
  · intro hcol
    unfold exclude_type_zero
    rw [if_pos hcol]

/-- C4: `filter_by_type` never returns fewer than 3 rows unless the
type-0-excluded table itself has fewer than 3 rows (any result smaller
than 3 *is* the type-0-excluded table), and every returned row has a type
other than 0 whenever the type column exists. -/
theorem claim_C4_filter_by_type (df : DFrame) (ty : ExType) :
    ((filter_by_type df ty).rows.length < 3 →
      filter_by_type df ty = exclude_type_zero df) ∧
    ((filter_by_type df ty).rows.length < 3 →
      (exclude_type_zero df).rows.length < 3) ∧
    (EXHIBITION_TYPE_COL ∈ df.cols →
      ∀ r ∈ (filter_by_type df ty).rows, r.get EXHIBITION_TYPE_COL ≠ some 0) := by
  have hbase : ∀ (h : filter_by_type df ty = exclude_type_zero df),
      ((filter_by_type df ty).rows.length < 3 →
        (exclude_type_zero df).rows.length < 3) := by
    intro h hlen
    rw [h] at hlen
    exact hlen
  cases ty with
  | null =>
    refine ⟨fun _ => rfl, hbase rfl, ?_⟩
    intro hcol r hr
    exact mem_exclude_type_zero hcol hr
  | unparseable =>
    refine ⟨fun _ => rfl, hbase rfl, ?_⟩
    intro hcol r hr
    exact mem_exclude_type_zero hcol hr
  | num target =>
    rw [filter_by_type_num]
    by_cases h1 : EXHIBITION_TYPE_COL ∉ (exclude_type_zero df).cols
    · rw [if_pos h1]
      exact ⟨fun _ => rfl, fun h => h, fun hcol r hr => mem_exclude_type_zero hcol hr⟩
    · rw [if_neg h1]
      by_cases h2 : ((exclude_type_zero df).filterRows
          (fun r => decide (r.get EXHIBITION_TYPE_COL = some target))).rows.length < 3
      · rw [if_pos h2]
        exact ⟨fun _ => rfl, fun h => h, fun hcol r hr => mem_exclude_type_zero hcol hr⟩
      · rw [if_neg h2]
        refine ⟨fun hlen => absurd hlen h2, fun hlen => absurd hlen h2, ?_⟩
        intro hcol r hr
        have hr' : r ∈ ((exclude_type_zero df).rows.filter
            (fun r => decide (r.get EXHIBITION_TYPE_COL = some target))) := hr
        exact mem_exclude_type_zero hcol (List.mem_filter.mp hr').1

/-- Witness data for the type filter: three rows, one of type 0. -/
def dfS : DFrame :=
  { cols := ["전시 제목", "전시 유형"]
    rows :=
      [ { title := "A", cells := [("전시 유형", some 0)] }
      , { title := "B", cells := [("전시 유형", some 1)] }
      , { title := "C", cells := [("전시 유형", some 2)] } ] }

theorem claim_C4_witness :
    filter_by_type dfS (.num 1) = exclude_type_zero dfS ∧
      (exclude_type_zero dfS).rows.length < 3 := by
  have h := claim_C4_filter_by_type dfS (.num 1)
  have hlen : (filter_by_type dfS (.num 1)).rows.length < 3 := by
    rw [filter_by_type_num]
    norm_num [exclude_type_zero, dfS, DFrame.filterRows, Row.get,
      EXHIBITION_TYPE_COL, List.filter, List.lookup]
  exact ⟨h.1 hlen, h.2.1 hlen⟩

theorem claim_C10_witness :
    (exclude_type_zero dfS).rows =
      dfS.rows.filter (fun r => decide (r.get EXHIBITION_TYPE_COL ≠ some 0)) :=
  (claim_C10_exclude_type_zero dfS).1 (by decide)

/-- The weighted comparison fields of the similarity search
(`SIMILARITY_FIELDS` in `reference_data.py`). -/
def SIMILARITY_FIELDS : List (String × ℚ) :=
  [ ("총 사용 예산", 35/100)
  , ("전시 일수", 25/100)
  , ("총 관객수", 25/100)
  , ("참여 작가 수_총(팀)", 15/100) ]

/-- The current-exhibition dict: a key can be absent, present with Python
`None`, or present with a number. -/
abbrev CurDict := List (String × Option ℚ)

/-- `field in current and current[field] is not None`, returning the value. -/
def curLookup (cur : CurDict) (f : String) : Option ℚ :=
  match cur.lookup f with
  | some (some v) => some v
  | _ => none

/-- The non-missing non-zero entries of a column:
`valid = col.notna() & (col != 0)`. -/
def colValid (df : DFrame) (f : String) : List ℚ :=
  df.rows.filterMap (fun r =>
    match r.get f with
    | some v => if v ≠ 0 then some v else none
    | none => none)

/-- The guard chain `get_similar_exhibitions` runs per weighted field:
skip when the field is absent from `current` or `None`, absent from the
columns, zero, has fewer than 2 valid column entries, or zero range;
otherwise the field is used, with this current value and column range. -/
def fieldGate (df : DFrame) (cur : CurDict) (f : String) : Option (ℚ × ℚ) :=
  match curLookup cur f with
  | none => none
  | some cv =>
    if f ∉ df.cols then none
    else if cv = 0 then none
    else if (colValid df f).length < 2 then none
    else if listMax (colValid df f) - listMin (colValid df f) = 0 then none
    else some (cv, listMax (colValid df f) - listMin (colValid df f))

/-- One row's normalized difference for a used field:
`(col - current_val).abs() / col_range`, clipped above at 1, and a missing
cell filled with the maximum difference 1. -/
def rowDiff (r : Row) (f : String) (cv range : ℚ) : ℚ :=
  match r.get f with
  | none => 1
  | some v => min (|v - cv| / range) 1

/-- One step of the `scores += diff * weight` accumulation for one row. -/
def simStep (df : DFrame) (cur : CurDict) (r : Row) (acc : ℚ)
    (fw : String × ℚ) : ℚ :=
  match fieldGate df cur fw.1 with
  | none => acc
  | some (cv, range) => acc + rowDiff r fw.1 cv range * fw.2

/-- One step of the `total_weight += weight` accumulation. -/
def weightStep (df : DFrame) (cur : CurDict) (acc : ℚ)
    (fw : String × ℚ) : ℚ :=
  match fieldGate df cur fw.1 with
  | none => acc
  | some _ => acc + fw.2

/-- A row's accumulated `Σ diff × weight` over the used fields. -/
def rowScoreNum (df : DFrame) (cur : CurDict) (r : Row) : ℚ :=
  SIMILARITY_FIELDS.foldl (simStep df cur r) 0

/-- `total_weight` after the field loop. -/
def totalWeight (df : DFrame) (cur : CurDict) : ℚ :=
  SIMILARITY_FIELDS.foldl (weightStep df cur) 0

/-- A row's `_similarity_score = 1 - scores / total_weight`. -/
def simScore (df : DFrame) (cur : CurDict) (r : Row) : ℚ :=
  1 - rowScoreNum df cur r / totalWeight df cur

/-- Score comparison used to sort rows best-first
(`sort_values("_similarity_score", ascending=False)`). -/
def scoreRel (a b : Row × ℚ) : Prop := a.2 ≥ b.2

instance : DecidableRel scoreRel :=
  fun a b => inferInstanceAs (Decidable (a.2 ≥ b.2))

/-- `get_similar_exhibitions(df, current, top_n)`: empty on an empty
table; the first `top_n` rows in table order (with no score column, here
`none`) when no field was usable; otherwise the rows sorted by descending
similarity score, truncated to `top_n`, each carrying its score.  pandas
`sort_values` uses an unstable quicksort, so the order among tied scores
is unspecified; the insertion sort fixes one admissible order and no
verified claim depends on the tie order. -/
def get_similar_exhibitions (df : DFrame) (cur : CurDict) (top_n : ℕ) :
    List (Row × Option ℚ) :=
  if df.rows.isEmpty then []
  else if totalWeight df cur = 0 then
    (df.rows.take top_n).map (fun r => (r, none))
  else
    let scored := df.rows.map (fun r => (r, simScore df cur r))
    ((scored.insertionSort scoreRel).take top_n).map (fun p => (p.1, some p.2))

theorem similarity_weights_nonneg : ∀ fw ∈ SIMILARITY_FIELDS, 0 ≤ fw.2 := by
  intro fw hfw
  fin_cases hfw <;> norm_num

theorem simStep_none {df : DFrame} {cur : CurDict} {r : Row} {a : ℚ}
    {fw : String × ℚ} (h : fieldGate df cur fw.1 = none) :
    simStep df cur r a fw = a := by
  unfold simStep
  rw [h]

theorem simStep_some {df : DFrame} {cur : CurDict} {r : Row} {a : ℚ}
    {fw : String × ℚ} {cv range : ℚ}
    (h : fieldGate df cur fw.1 = some (cv, range)) :
    simStep df cur r a fw = a + rowDiff r fw.1 cv range * fw.2 := by
  unfold simStep
  rw [h]

theorem weightStep_none {df : DFrame} {cur : CurDict} {a : ℚ}
    {fw : String × ℚ} (h : fieldGate df cur fw.1 = none) :
    weightStep df cur a fw = a := by
  unfold weightStep
  rw [h]

theorem weightStep_some {df : DFrame} {cur : CurDict} {a : ℚ}
    {fw : String × ℚ} {p : ℚ × ℚ} (h : fieldGate df cur fw.1 = some p) :
    weightStep df cur a fw = a + fw.2 := by
  unfold weightStep
  rw [h]

theorem fieldGate_spec {df : DFrame} {cur : CurDict} {f : String}
    {cv range : ℚ} (h : fieldGate df cur f = some (cv, range)) :
    0 < range ∧ curLookup cur f = some cv := by
  cases hc : curLookup cur f with
  | none =>
    have hnone : fieldGate df cur f = none := by
      unfold fieldGate
      rw [hc]
    rw [hnone] at h
    simp at h
  | some cv' =>
    have hunf : fieldGate df cur f =
        (if f ∉ df.cols then none
         else if cv' = 0 then none
         else if (colValid df f).length < 2 then none
         else if listMax (colValid df f) - listMin (colValid df f) = 0 then none
         else some (cv', listMax (colValid df f) - listMin (colValid df f))) := by
      unfold fieldGate
      rw [hc]
    rw [hunf] at h
    by_cases h1 : f ∉ df.cols
    · rw [if_pos h1] at h; simp at h
    · rw [if_neg h1] at h
      by_cases hz : cv' = 0
      · rw [if_pos hz] at h; simp at h
      · rw [if_neg hz] at h
        by_cases h3 : (colValid df f).length < 2
        · rw [if_pos h3] at h; simp at h
        · rw [if_neg h3] at h
          by_cases h4 : listMax (colValid df f) - listMin (colValid df f) = 0
          · rw [if_pos h4] at h; simp at h
          · rw [if_neg h4] at h
            simp only [Option.some.injEq, Prod.mk.injEq] at h
            obtain ⟨hcv, hrange⟩ := h
            subst hcv
            constructor
            · have hne : colValid df f ≠ [] := by
                intro hnil
                rw [hnil] at h3
                simp at h3
              have hmm : listMin (colValid df f) ≤ listMax (colValid df f) :=
                listMin_le (listMax_mem hne)
              rw [← hrange]
              rcases lt_or_eq_of_le (sub_nonneg.mpr hmm) with hlt | heq
              · exact hlt
              · exact absurd heq.symm h4
            · rfl

theorem rowDiff_nonneg {r : Row} {f : String} {cv range : ℚ}
    (hr : 0 < range) : 0 ≤ rowDiff r f cv range := by
  unfold rowDiff
  cases r.get f with
  | none => norm_num
  | some v => exact le_min (by positivity) (by norm_num)

theorem rowDiff_le_one {r : Row} {f : String} {cv range : ℚ} :
    rowDiff r f cv range ≤ 1 := by
  unfold rowDiff
  cases r.get f with
  | none => norm_num
  | some v => exact min_le_right _ _

theorem rowDiff_self {r : Row} {f : String} {cv range : ℚ}
    (hr : r.get f = some cv) : rowDiff r f cv range = 0 := by
  unfold rowDiff
  rw [hr]
  simp

theorem foldl_simStep_nonneg (df : DFrame) (cur : CurDict) (r : Row) :
    ∀ (fs : List (String × ℚ)) (a : ℚ), 0 ≤ a → (∀ fw ∈ fs, 0 ≤ fw.2) →
      0 ≤ fs.foldl (simStep df cur r) a := by
  intro fs
  induction fs with
  | nil => intro a ha _; simpa using ha
  | cons fw t ih =>
    intro a ha hw
    rw [List.foldl_cons]
    apply ih
    · cases hg : fieldGate df cur fw.1 with
      | none =>
        rw [simStep_none hg]
        exact ha
      | some p =>
        obtain ⟨cv, range⟩ := p
        rw [simStep_some hg]
        have hpos := (fieldGate_spec hg).1
        have hd : 0 ≤ rowDiff r fw.1 cv range := rowDiff_nonneg hpos
        have hww := hw fw (List.mem_cons_self fw t)
        have : 0 ≤ rowDiff r fw.1 cv range * fw.2 := mul_nonneg hd hww
        linarith
    · intro fw' h
      exact hw fw' (List.mem_cons_of_mem _ h)

theorem foldl_weightStep_nonneg (df : DFrame) (cur : CurDict) :
    ∀ (fs : List (String × ℚ)) (a : ℚ), 0 ≤ a → (∀ fw ∈ fs, 0 ≤ fw.2) →
      0 ≤ fs.foldl (weightStep df cur) a := by
  intro fs
  induction fs with
  | nil => intro a ha _; simpa using ha
  | cons fw t ih =>
    intro a ha hw
    rw [List.foldl_cons]
    apply ih
    · cases hg : fieldGate df cur fw.1 with
      | none =>
        rw [weightStep_none hg]
        exact ha
      | some p =>
        rw [weightStep_some hg]
        have hww := hw fw (List.mem_cons_self fw t)
        linarith
    · intro fw' h
      exact hw fw' (List.mem_cons_of_mem _ h)

theorem foldl_sim_le_weight (df : DFrame) (cur : CurDict) (r : Row) :
    ∀ (fs : List (String × ℚ)) (a b : ℚ), a ≤ b → (∀ fw ∈ fs, 0 ≤ fw.2) →
      fs.foldl (simStep df cur r) a ≤ fs.foldl (weightStep df cur) b := by
  intro fs
  induction fs with
  | nil => intro a b hab _; simpa using hab
  | cons fw t ih =>
    intro a b hab hw
    rw [List.foldl_cons, List.foldl_cons]
    apply ih
    · cases hg : fieldGate df cur fw.1 with
      | none =>
        rw [simStep_none hg, weightStep_none hg]
        exact hab
      | some p =>
        obtain ⟨cv, range⟩ := p
        rw [simStep_some hg, weightStep_some hg]
        have hww := hw fw (List.mem_cons_self fw t)
        have hd1 : rowDiff r fw.1 cv range ≤ 1 := rowDiff_le_one
        have : rowDiff r fw.1 cv range * fw.2 ≤ fw.2 :=
          mul_le_of_le_one_left hww hd1
        linarith
    · intro fw' h
      exact hw fw' (List.mem_cons_of_mem _ h)

theorem foldl_simStep_mono (df : DFrame) (cur : CurDict) (r1 r2 : Row) :
    ∀ (fs : List (String × ℚ)),
      (∀ fw ∈ fs, ∀ cv range, fieldGate df cur fw.1 = some (cv, range) →
        r1.get fw.1 = some cv) →
      (∀ fw ∈ fs, 0 ≤ fw.2) →
      ∀ (a1 a2 : ℚ), a1 ≤ a2 →
        fs.foldl (simStep df cur r1) a1 ≤ fs.foldl (simStep df cur r2) a2 := by
  intro fs
  induction fs with
  | nil => intro _ _ a1 a2 h; simpa using h
  | cons fw t ih =>
    intro hmatch hw a1 a2 ha
    rw [List.foldl_cons, List.foldl_cons]
    apply ih
    · intro fw' h
      exact hmatch fw' (List.mem_cons_of_mem _ h)
    · intro fw' h
      exact hw fw' (List.mem_cons_of_mem _ h)
    · cases hg : fieldGate df cur fw.1 with
      | none =>
        rw [simStep_none hg, simStep_none hg]
        exact ha
      | some p =>
        obtain ⟨cv, range⟩ := p
        rw [simStep_some hg, simStep_some hg]
        have hpos := (fieldGate_spec hg).1
        have hr1 : r1.get fw.1 = some cv :=
          hmatch fw (List.mem_cons_self fw t) cv range hg
        have hd1 : rowDiff r1 fw.1 cv range = 0 := rowDiff_self hr1
        have hd2 : 0 ≤ rowDiff r2 fw.1 cv range := rowDiff_nonneg hpos
        have hww := hw fw (List.mem_cons_self fw t)
        have : 0 ≤ rowDiff r2 fw.1 cv range * fw.2 := mul_nonneg hd2 hww
        rw [hd1]
        linarith

theorem rowScoreNum_nonneg (df : DFrame) (cur : CurDict) (r : Row) :
    0 ≤ rowScoreNum df cur r :=
  foldl_simStep_nonneg df cur r SIMILARITY_FIELDS 0 le_rfl similarity_weights_nonneg

theorem rowScoreNum_le_totalWeight (df : DFrame) (cur : CurDict) (r : Row) :
    rowScoreNum df cur r ≤ totalWeight df cur :=
  foldl_sim_le_weight df cur r SIMILARITY_FIELDS 0 0 le_rfl similarity_weights_nonneg

theorem totalWeight_nonneg (df : DFrame) (cur : CurDict) :
    0 ≤ totalWeight df cur :=
  foldl_weightStep_nonneg df cur SIMILARITY_FIELDS 0 le_rfl similarity_weights_nonneg

theorem simScore_unit {df : DFrame} {cur : CurDict}
    (htw : totalWeight df cur ≠ 0) (r : Row) :
    0 ≤ simScore df cur r ∧ simScore df cur r ≤ 1 := by
  have htwpos : 0 < totalWeight df cur :=
    lt_of_le_of_ne (totalWeight_nonneg df cur) (Ne.symm htw)
  have h0 : 0 ≤ rowScoreNum df cur r := rowScoreNum_nonneg df cur r
  have h1 : rowScoreNum df cur r ≤ totalWeight df cur :=
    rowScoreNum_le_totalWeight df cur r
  have hq0 : 0 ≤ rowScoreNum df cur r / totalWeight df cur :=
    div_nonneg h0 (le_of_lt htwpos)
  have hq1 : rowScoreNum df cur r / totalWeight df cur ≤ 1 :=
    (div_le_one htwpos).mpr h1
  unfold simScore
  constructor <;> linarith

theorem get_similar_deg {df : DFrame} {cur : CurDict} {top_n : ℕ}
    (hempty : df.rows.isEmpty = false) (htw : totalWeight df cur = 0) :
    get_similar_exhibitions df cur top_n =
      (df.rows.take top_n).map (fun r => (r, none)) := by
  unfold get_similar_exhibitions
  rw [if_neg (by simp [hempty]), if_pos htw]

theorem get_similar_main {df : DFrame} {cur : CurDict} {top_n : ℕ}
    (hempty : df.rows.isEmpty = false) (htw : ¬ totalWeight df cur = 0) :
    get_similar_exhibitions df cur top_n =
      (((df.rows.map (fun r => (r, simScore df cur r))).insertionSort
          scoreRel).take top_n).map (fun p => (p.1, some p.2)) := by
  unfold get_similar_exhibitions
  rw [if_neg (by simp [hempty]), if_neg htw]

/-- C5: on a non-empty table, `get_similar_exhibitions` returns at most
`top_n` rows; with a positive total weight every returned row carries a
similarity score in `[0, 1]`; with total weight 0 it returns the first
`top_n` rows in table order (with no score) instead of failing. -/
theorem claim_C5_get_similar (df : DFrame) (cur : CurDict) (top_n : ℕ)
    (hne : df.rows ≠ []) :
    (get_similar_exhibitions df cur top_n).length ≤ top_n ∧
    (totalWeight df cur ≠ 0 →
      ∀ p ∈ get_similar_exhibitions df cur top_n,
        ∃ q : ℚ, p.2 = some q ∧ 0 ≤ q ∧ q ≤ 1) ∧
    (totalWeight df cur = 0 →
      get_similar_exhibitions df cur top_n =
        (df.rows.take top_n).map (fun r => (r, none))) := by
  have hempty : df.rows.isEmpty = false := by
    cases hr : df.rows
    · exact absurd hr hne
    · rfl
  refine ⟨?_, ?_, ?_⟩
  · by_cases htw : totalWeight df cur = 0
    · rw [get_similar_deg hempty htw]
      simp only [List.length_map, List.length_take]
      exact min_le_left _ _
    · rw [get_similar_main hempty htw]
      simp only [List.length_map, List.length_take]
      exact min_le_left _ _
  · intro htw p hp
    rw [get_similar_main hempty htw] at hp
    obtain ⟨q, hq, rfl⟩ := List.mem_map.mp hp
    have hq2 : q ∈ (df.rows.map (fun r => (r, simScore df cur r))).insertionSort
        scoreRel := List.mem_of_mem_take hq
    rw [List.mem_insertionSort] at hq2
    obtain ⟨r, _, rfl⟩ := List.mem_map.mp hq2
    exact ⟨simScore df cur r, rfl, (simScore_unit htw r).1, (simScore_unit htw r).2⟩
  · intro htw
    exact get_similar_deg hempty htw

/-- C6: a historical row equal to the current record on every weighted
similarity field (with non-zero values) scores at least as high as every
other row. -/
theorem claim_C6_self_match_best (df : DFrame) (cur : CurDict) (rstar : Row)
    (_hmem : rstar ∈ df.rows)
    (h : ∀ fw ∈ SIMILARITY_FIELDS, ∃ v : ℚ, v ≠ 0 ∧
      curLookup cur fw.1 = some v ∧ rstar.get fw.1 = some v) :
    ∀ r ∈ df.rows, simScore df cur r ≤ simScore df cur rstar := by
  intro r _
  have hmatch : ∀ fw ∈ SIMILARITY_FIELDS, ∀ cv range,
      fieldGate df cur fw.1 = some (cv, range) → rstar.get fw.1 = some cv := by
    intro fw hfw cv range hg
    obtain ⟨v, hv0, hcl, hrg⟩ := h fw hfw
    have hcl2 := (fieldGate_spec hg).2
    rw [hcl] at hcl2
    have hvcv : v = cv := by injection hcl2
    rw [← hvcv]
    exact hrg
  have hnum : rowScoreNum df cur rstar ≤ rowScoreNum df cur r :=
    foldl_simStep_mono df cur rstar r SIMILARITY_FIELDS hmatch
      similarity_weights_nonneg 0 0 le_rfl
  unfold simScore
  by_cases htw : totalWeight df cur = 0
  · rw [htw, div_zero, div_zero]
  · have htwpos : 0 < totalWeight df cur :=
      lt_of_le_of_ne (totalWeight_nonneg df cur) (Ne.symm htw)
    have hinv : (0:ℚ) ≤ (totalWeight df cur)⁻¹ :=
      inv_nonneg.mpr (le_of_lt htwpos)
    have hd := mul_le_mul_of_nonneg_right hnum hinv
    rw [div_eq_mul_inv, div_eq_mul_inv]
    linarith

/-- Witness data for the similarity search: three complete rows; the
current record coincides with the first row on every weighted field. -/
def rowWA : Row :=
  { title := "A", cells :=
      [ ("총 사용 예산", some 100), ("전시 일수", some 30)
      , ("총 관객수", some 1000), ("참여 작가 수_총(팀)", some 10) ] }

def rowWB : Row :=
  { title := "B", cells :=
      [ ("총 사용 예산", some 200), ("전시 일수", some 60)
      , ("총 관객수", some 2000), ("참여 작가 수_총(팀)", some 20) ] }

def rowWC : Row :=
  { title := "C", cells :=
      [ ("총 사용 예산", some 400), ("전시 일수", some 90)
      , ("총 관객수", some 8000), ("참여 작가 수_총(팀)", some 40) ] }

def dfW : DFrame :=
  { cols := ["전시 제목", "총 사용 예산", "전시 일수", "총 관객수", "참여 작가 수_총(팀)"]
    rows := [rowWA, rowWB, rowWC] }

def curW : CurDict :=
  [ ("총 사용 예산", some 100), ("전시 일수", some 30)
  , ("총 관객수", some 1000), ("참여 작가 수_총(팀)", some 10) ]

theorem claim_C5_witness :
    (get_similar_exhibitions dfW curW 5).length ≤ 5 :=
  (claim_C5_get_similar dfW curW 5 (by decide)).1

theorem claim_C6_witness :
    simScore dfW curW rowWB ≤ simScore dfW curW rowWA := by
  have h := claim_C6_self_match_best dfW curW rowWA (by decide)
    (by
      intro fw hfw
      fin_cases hfw
      · exact ⟨100, by norm_num, by decide, by decide⟩
      · exact ⟨30, by norm_num, by decide, by decide⟩
      · exact ⟨1000, by norm_num, by decide, by decide⟩
      · exact ⟨10, by norm_num, by decide, by decide⟩)
  exact h rowWB (by decide)

/-- The `Insight` dataclass of `analysis_engine.py`.  The Python `section`
field is `sect` here (`section` is a Lean keyword).  The natural-language
`text` string is not modelled; the one numeric quantity of the text that a
claim inspects — the deviation percentage `diff_pct` interpolated into the
sentence (the dataclass keeps it only inside `text`) — is carried as the
extra field `diff_pct`. -/
structure Insight where
  category : String
  sect : String
  title : String
  metric_name : String
  current_value : Option ℚ := none
  reference_avg : Option ℚ := none
  percentile : Option ℤ := none
  rank : Option ℕ := none
  total_count : Option ℕ := none
  priority : ℕ := 2
  selected : Bool := true
  diff_pct : Option ℚ := none
  deriving DecidableEq, Repr

/-- `_make_insight(...)` from `analysis_engine.py` (minus the leading
underscore).  The guard is `current_val is None` — a current value of 0
passes it — then unavailable stats, `stats.count < 3`, and `avg == 0`. -/
def make_insight (category sect title metric_name : String)
    (current_val : Option ℚ) (stats : Option FieldStats)
    (higher_is_better : Bool) (priority : ℕ) : Option Insight :=
  match current_val, stats with
  | none, _ => none
  | _, none => none
  | some cv, some s =>
    if s.count < 3 then none
    else if s.mean = 0 then none
    else some {
      category := category, sect := sect, title := title
      metric_name := metric_name
      current_value := some cv
      reference_avg := some s.mean
      percentile := some (compute_percentile (some s) cv)
      rank := some (compute_rank (some s) cv (!higher_is_better))
      total_count := some s.count
      priority := priority
      selected := true
      diff_pct := some ((cv - s.mean) / |s.mean| * 100) }

/-- A hand-written available stats value with count 3 (mean of
`[100, 100, 130]` is 110). -/
def statsC7 : FieldStats :=
  { field_name := "총 사용 예산", count := 3, mean := 110, median := 100
    min_val := 100, max_val := 130
    values := [100, 100, 130], titles := ["A", "B", "C"] }

/-- C7 counterexample: the claim says a falsy current value (including 0)
yields nothing, but `_make_insight` only guards `current_val is None` — at
current value 0 with available count-3 stats of non-zero mean it emits an
insight. -/
theorem claim_C7_counterexample :
    make_insight "예산" "results" "총 사용 예산" "총 사용 예산"
      (some 0) (some statsC7) true 2 ≠ none :=
  Option.ne_none_iff_isSome.mpr (by decide)

/-- C7 (amended): `make_insight` returns nothing exactly when the current
value is missing (`None` — not merely falsy: 0 passes the gate), the stats
are unavailable, `stats.count < 3`, or the mean is exactly 0; otherwise it
emits the insight whose `diff_pct` is `(current − mean) / |mean| × 100`. -/
theorem claim_C7_make_insight (category sect title metric_name : String)
    (cv : Option ℚ) (stats : Option FieldStats) (hib : Bool) (pr : ℕ) :
    (make_insight category sect title metric_name cv stats hib pr = none ↔
      cv = none ∨ stats = none ∨
        ∃ s, stats = some s ∧ (s.count < 3 ∨ s.mean = 0)) ∧
    (∀ v s, cv = some v → stats = some s → ¬ s.count < 3 → s.mean ≠ 0 →
      make_insight category sect title metric_name cv stats hib pr = some
        { category := category, sect := sect, title := title
          metric_name := metric_name
          current_value := some v
          reference_avg := some s.mean
          percentile := some (compute_percentile (some s) v)
          rank := some (compute_rank (some s) v (!hib))
          total_count := some s.count
          priority := pr
          selected := true
          diff_pct := some ((v - s.mean) / |s.mean| * 100) }) := by
  constructor
  · cases cv with
    | none => simp [make_insight]
    | some v =>
      cases stats with
      | none => simp [make_insight]
      | some s =>
        by_cases h3 : s.count < 3
        · simp [make_insight, h3]
        · by_cases hm : s.mean = 0
          · simp [make_insight, h3, hm]
          · simp [make_insight, h3, hm]
  · intro v s hcv hs h3 hm
    subst hcv
    subst hs
    simp [make_insight, h3, hm]

theorem claim_C7_witness :
    make_insight "관객" "results" "총 관객수" "총 관객수"
      (some 130) (some statsC7) true 2 = some
      { category := "관객", sect := "results", title := "총 관객수"
        metric_name := "총 관객수"
        current_value := some 130
        reference_avg := some statsC7.mean
        percentile := some (compute_percentile (some statsC7) 130)
        rank := some (compute_rank (some statsC7) 130 (!true))
        total_count := some statsC7.count
        priority := 2
        selected := true
        diff_pct := some ((130 - statsC7.mean) / |statsC7.mean| * 100) } :=
  (claim_C7_make_insight "관객" "results" "총 관객수" "총 관객수"
    (some 130) (some statsC7) true 2).2 130 statsC7 rfl rfl
    (by decide) (by decide)

/-- `eval_type` of an `EvalDraft`. -/
inductive EvalType where
  | positive
  | negative
  | improvement
  deriving DecidableEq, Repr

/-- The generated draft sentences, one constructor per Korean f-string
template of `_generate_eval_drafts`, carrying the interpolated numbers:
`absDiff` stands for the `{abs(diff):.0f}` placeholder and `cv` for the
`{ins.current_value*100:.1f}` of the recovery template. -/
inductive DraftText where
  | posAudienceHigh (metric : String) (absDiff : ℚ)
  | posCostLow
  | posParticipation
  | posRecovery (cv : ℚ)
  | posGeneric (metric : String)
  | posCostEfficient (absDiff : ℚ)
  | negAudience (metric : String) (absDiff : ℚ)
  | negParticipation
  | negCostHigh (absDiff : ℚ)
  | impAudience
  | impParticipation
  | impPress
  deriving DecidableEq, Repr

/-- Does the template come from the `diff > 15` positive branch? -/
def DraftText.fromOver15Rule : DraftText → Bool
  | .posAudienceHigh _ _ => true
  | .posCostLow => true
  | .posParticipation => true
  | .posRecovery _ => true
  | .posGeneric _ => true
  | _ => false

/-- Is the template the cost-efficiency positive draft of the
`diff < −10` rule? -/
def DraftText.isCostEfficient : DraftText → Bool
  | .posCostEfficient _ => true
  | _ => false

/-- The `EvalDraft` dataclass (text modelled by its template tag). -/
structure EvalDraft where
  eval_type : EvalType
  text : DraftText
  source_metric : String
  confidence : ℚ := 8/10
  selected : Bool := true
  deriving DecidableEq, Repr

/-- Python's substring test `pat in s` on the character list. -/
def listHasSub (pat : List Char) : List Char → Bool
  | [] => pat.isEmpty
  | c :: cs => pat.isPrefixOf (c :: cs) || listHasSub pat cs

/-- `pat in s` for strings. -/
def strContainsSub (s pat : String) : Bool :=
  listHasSub pat.toList s.toList

/-- The `diff > 15` positive branch of `_generate_eval_drafts`: audience /
cost-below-zero (dead: `diff > 15` and `diff < 0` cannot hold together) /
participation / recovery keyword, else the generic positive template. -/
def posDrafts (name : String) (cv diff : ℚ) : List EvalDraft :=
  if diff > 15 then
    if strContainsSub name "관객" then
      [{ eval_type := .positive, text := .posAudienceHigh name |diff|, source_metric := name }]
    else if strContainsSub name "비용" && decide (diff < 0) then
      [{ eval_type := .positive, text := .posCostLow, source_metric := name }]
    else if strContainsSub name "참여" then
      [{ eval_type := .positive, text := .posParticipation, source_metric := name }]
    else if strContainsSub name "회수" then
      [{ eval_type := .positive, text := .posRecovery cv, source_metric := name }]
    else
      [{ eval_type := .positive, text := .posGeneric name, source_metric := name }]
  else []

/-- The separate `"비용" in name and diff < -10` positive rule. -/
def costPosDrafts (name : String) (diff : ℚ) : List EvalDraft :=
  if strContainsSub name "비용" && decide (diff < -10) then
    [{ eval_type := .positive, text := .posCostEfficient |diff|, source_metric := name }]
  else []

/-- The `diff < -15` negative branch (audience-without-cost, then
participation). -/
def negDrafts (name : String) (diff : ℚ) : List EvalDraft :=
  if diff < -15 then
    if strContainsSub name "관객" && !strContainsSub name "비용" then
      [{ eval_type := .negative, text := .negAudience name |diff|, source_metric := name }]
    else if strContainsSub name "참여" then
      [{ eval_type := .negative, text := .negParticipation, source_metric := name }]
    else []
  else []

/-- The separate `"비용" in name and diff > 15` negative rule. -/
def costNegDrafts (name : String) (diff : ℚ) : List EvalDraft :=
  if strContainsSub name "비용" && decide (diff > 15) then
    [{ eval_type := .negative, text := .negCostHigh |diff|, source_metric := name }]
  else []

/-- The `diff < -20` improvement branch. -/
def impDrafts (name : String) (diff : ℚ) : List EvalDraft :=
  if diff < -20 then
    if strContainsSub name "관객" && !strContainsSub name "비용" then
      [{ eval_type := .improvement, text := .impAudience, source_metric := name }]
    else if strContainsSub name "참여" then
      [{ eval_type := .improvement, text := .impParticipation, source_metric := name }]
    else if strContainsSub name "보도" then
      [{ eval_type := .improvement, text := .impPress, source_metric := name }]
    else []
  else []

/-- The loop body of `_generate_eval_drafts` for one insight: skip when
the current value or reference mean is missing or the mean is 0, else
recompute `diff` and append the drafts of every rule in source order. -/
def draftsForInsight (ins : Insight) : List EvalDraft :=
  match ins.current_value, ins.reference_avg with
  | some cv, some avg =>
    if avg = 0 then []
    else
      posDrafts ins.metric_name cv ((cv - avg) / |avg| * 100)
        ++ costPosDrafts ins.metric_name ((cv - avg) / |avg| * 100)
        ++ negDrafts ins.metric_name ((cv - avg) / |avg| * 100)
        ++ costNegDrafts ins.metric_name ((cv - avg) / |avg| * 100)
        ++ impDrafts ins.metric_name ((cv - avg) / |avg| * 100)
  | _, _ => []

/-- A draft's dedup key `(d.eval_type, d.source_metric)`. -/
def draftKey (d : EvalDraft) : EvalType × String :=
  (d.eval_type, d.source_metric)

/-- The final dedup loop: keep the first draft per key. -/
def dedupAux (seen : List (EvalType × String)) : List EvalDraft → List EvalDraft
  | [] => []
  | d :: rest =>
    if draftKey d ∈ seen then dedupAux seen rest
    else d :: dedupAux (draftKey d :: seen) rest

/-- `_generate_eval_drafts(insights, cur)` (the `cur` argument is unused in
the Python body too). -/
def generate_eval_drafts (insights : List Insight) (_cur : CurDict) :
    List EvalDraft :=
  dedupAux [] (insights.flatMap draftsForInsight)

theorem posDrafts_eq_nil {name : String} {cv diff : ℚ} (h : ¬ diff > 15) :
    posDrafts name cv diff = [] := by
  unfold posDrafts
  rw [if_neg h]

theorem costPosDrafts_fire {name : String} {diff : ℚ}
    (hc : strContainsSub name "비용" = true) (hd : diff < -10) :
    costPosDrafts name diff =
      [{ eval_type := .positive, text := .posCostEfficient |diff|,
         source_metric := name }] := by
  unfold costPosDrafts
  rw [if_pos]
  rw [hc]
  simp only [Bool.true_and]
  exact decide_eq_true hd

theorem mem_costPosDrafts_over15 {name : String} {diff : ℚ} {d : EvalDraft}
    (h : d ∈ costPosDrafts name diff) : d.text.fromOver15Rule = false := by
  unfold costPosDrafts at h
  split at h
  · simp at h
    subst h
    rfl
  · simp at h

theorem mem_negDrafts_over15 {name : String} {diff : ℚ} {d : EvalDraft}
    (h : d ∈ negDrafts name diff) : d.text.fromOver15Rule = false := by
  unfold negDrafts at h
  split at h
  · split at h
    · simp at h
      subst h
      rfl
    · split at h
      · simp at h
        subst h
        rfl
      · simp at h
  · simp at h

theorem mem_costNegDrafts_over15 {name : String} {diff : ℚ} {d : EvalDraft}
    (h : d ∈ costNegDrafts name diff) : d.text.fromOver15Rule = false := by
  unfold costNegDrafts at h
  split at h
  · simp at h
    subst h
    rfl
  · simp at h

theorem mem_impDrafts_over15 {name : String} {diff : ℚ} {d : EvalDraft}
    (h : d ∈ impDrafts name diff) : d.text.fromOver15Rule = false := by
  unfold impDrafts at h
  split at h
  · split at h
    · simp at h
      subst h
      rfl
    · split at h
      · simp at h
        subst h
        rfl
      · split at h
        · simp at h
          subst h
          rfl
        · simp at h
  · simp at h

/-- C8 (amended): for a cost-keyword insight with recomputed
`diff_pct < −10` the per-insight rule does append the positive
efficient-operation draft; the rule is a separate `if` from the
`diff_pct > 15` positive branch, but the two thresholds are mutually
exclusive, so no draft of the `> 15` branch is generated for the same
insight — the two rules can never both fire for one insight. -/
theorem claim_C8_cost_rule (ins : Insight) (v a : ℚ)
    (hv : ins.current_value = some v) (ha : ins.reference_avg = some a)
    (ha0 : a ≠ 0) (hcost : strContainsSub ins.metric_name "비용" = true)
    (hdiff : (v - a) / |a| * 100 < -10) :
    ({ eval_type := .positive,
       text := .posCostEfficient |(v - a) / |a| * 100|,
       source_metric := ins.metric_name } : EvalDraft) ∈ draftsForInsight ins ∧
    (∀ d ∈ draftsForInsight ins, d.text.fromOver15Rule = false) := by
  have hunf : draftsForInsight ins =
      posDrafts ins.metric_name v ((v - a) / |a| * 100)
        ++ costPosDrafts ins.metric_name ((v - a) / |a| * 100)
        ++ negDrafts ins.metric_name ((v - a) / |a| * 100)
        ++ costNegDrafts ins.metric_name ((v - a) / |a| * 100)
        ++ impDrafts ins.metric_name ((v - a) / |a| * 100) := by
    simp only [draftsForInsight, hv, ha]
    rw [if_neg ha0]
  rw [hunf]
  have h15 : ¬ ((v - a) / |a| * 100 > 15) := by linarith
  constructor
  · rw [posDrafts_eq_nil h15, costPosDrafts_fire hcost hdiff]
    simp
  · intro d hd
    simp only [List.mem_append] at hd
    rcases hd with (((h1 | h2) | h3) | h4) | h5
    · rw [posDrafts_eq_nil h15] at h1
      simp at h1
    · exact mem_costPosDrafts_over15 h2
    · exact mem_negDrafts_over15 h3
    · exact mem_costNegDrafts_over15 h4
    · exact mem_impDrafts_over15 h5

/-- The dedup loop keeps, per key, exactly the first draft not yet seen. -/
theorem dedupAux_filter (et : EvalType) (sm : String) :
    ∀ (l : List EvalDraft) (seen : List (EvalType × String)),
      (dedupAux seen l).filter (fun d => decide (draftKey d = (et, sm))) =
        (if (et, sm) ∈ seen then []
         else (l.filter (fun d => decide (draftKey d = (et, sm)))).take 1) := by
  intro l
  induction l with
  | nil =>
    intro seen
    simp [dedupAux]
  | cons d rest ih =>
    intro seen
    by_cases hd : draftKey d ∈ seen
    · simp only [dedupAux]
      rw [if_pos hd]
      rw [ih seen]
      by_cases hkey : draftKey d = (et, sm)
      · have hmem : (et, sm) ∈ seen := hkey ▸ hd
        rw [if_pos hmem, if_pos hmem]
      · have hf : (d :: rest).filter (fun x => decide (draftKey x = (et, sm)))
            = rest.filter (fun x => decide (draftKey x = (et, sm))) := by
          rw [List.filter_cons]
          simp [hkey]
        rw [hf]
    · simp only [dedupAux]
      rw [if_neg hd]
      by_cases hkey : draftKey d = (et, sm)
      · rw [List.filter_cons]
        have hdec : decide (draftKey d = (et, sm)) = true := decide_eq_true hkey
        rw [hdec]
        simp only [if_true]
        rw [ih (draftKey d :: seen)]
        rw [if_pos (by rw [← hkey]; exact List.mem_cons_self _ _)]
        rw [if_neg (by rw [← hkey]; exact hd)]
        rw [List.filter_cons, hdec]
        simp
      · rw [List.filter_cons]
        have hdec : decide (draftKey d = (et, sm)) = false := decide_eq_false hkey
        rw [hdec]
        simp only [Bool.false_eq_true, if_false]
        rw [ih (draftKey d :: seen)]
        have hmem : ((et, sm) ∈ draftKey d :: seen) ↔ ((et, sm) ∈ seen) := by
          constructor
          · intro h
            rcases List.mem_cons.mp h with h | h
            · exact absurd h.symm hkey
            · exact h
          · exact fun h => List.mem_cons_of_mem _ h
        by_cases hs : (et, sm) ∈ seen
        · rw [if_pos (hmem.mpr hs), if_pos hs]
        · rw [if_neg (fun hh => hs (hmem.mp hh)), if_neg hs]
          rw [List.filter_cons, hdec]
          simp

/-- C9: among the drafts generated for an insight list, for every
`(eval_type, source_metric)` key the synthesizer's output keeps exactly the
first matching draft of the generation order (the key's entire output is
`take 1` of the candidates with that key; in particular, when candidates
with the key exist, exactly one survives and it is the first). -/
theorem claim_C9_eval_dedup (insights : List Insight) (cur : CurDict)
    (et : EvalType) (sm : String) :
    (generate_eval_drafts insights cur).filter
        (fun d => decide (draftKey d = (et, sm))) =
      ((insights.flatMap draftsForInsight).filter
        (fun d => decide (draftKey d = (et, sm)))).take 1 ∧
    (∀ d rest,
      (insights.flatMap draftsForInsight).filter
          (fun x => decide (draftKey x = (et, sm))) = d :: rest →
      (generate_eval_drafts insights cur).filter
          (fun x => decide (draftKey x = (et, sm))) = [d]) := by
  have h0 := dedupAux_filter et sm (insights.flatMap draftsForInsight) []
  rw [if_neg (List.not_mem_nil _)] at h0
  constructor
  · exact h0
  · intro d rest hfil
    unfold generate_eval_drafts
    rw [h0, hfil]
    rfl

/-- A cost insight 30% above the reference mean (`diff_pct = 30`). -/
def insHi : Insight :=
  { category := "예산", sect := "results", title := "관객당 비용"
    metric_name := "관객당 비용", current_value := some 130
    reference_avg := some 100 }

/-- A cost insight 30% below the reference mean (`diff_pct = −30`). -/
def insLo : Insight :=
  { category := "예산", sect := "results", title := "관객당 비용"
    metric_name := "관객당 비용", current_value := some 70
    reference_avg := some 100 }

def draftA : EvalDraft :=
  { eval_type := .positive, text := .posAudienceHigh "관객당 비용" 30
    source_metric := "관객당 비용" }

def draftN : EvalDraft :=
  { eval_type := .negative, text := .negCostHigh 30
    source_metric := "관객당 비용" }

def draftE : EvalDraft :=
  { eval_type := .positive, text := .posCostEfficient 30
    source_metric := "관객당 비용" }

theorem draftsHi_eval : draftsForInsight insHi = [draftA, draftN] := by
  norm_num [draftsForInsight, insHi, posDrafts, costPosDrafts, negDrafts,
    costNegDrafts, impDrafts, draftA, draftN,
    show strContainsSub "관객당 비용" "관객" = true from by decide,
    show strContainsSub "관객당 비용" "비용" = true from by decide,
    show strContainsSub "관객당 비용" "참여" = false from by decide,
    show strContainsSub "관객당 비용" "회수" = false from by decide,
    show strContainsSub "관객당 비용" "보도" = false from by decide]

theorem draftsLo_eval : draftsForInsight insLo = [draftE] := by
  norm_num [draftsForInsight, insLo, posDrafts, costPosDrafts, negDrafts,
    costNegDrafts, impDrafts, draftE,
    show strContainsSub "관객당 비용" "관객" = true from by decide,
    show strContainsSub "관객당 비용" "비용" = true from by decide,
    show strContainsSub "관객당 비용" "참여" = false from by decide,
    show strContainsSub "관객당 비용" "회수" = false from by decide,
    show strContainsSub "관객당 비용" "보도" = false from by decide]

theorem candHiLo_eval :
    [insHi, insLo].flatMap draftsForInsight = [draftA, draftN, draftE] := by
  simp [draftsHi_eval, draftsLo_eval]

theorem genHiLo_eval :
    generate_eval_drafts [insHi, insLo] [] = [draftA, draftN] := by
  unfold generate_eval_drafts
  rw [candHiLo_eval]
  simp [dedupAux, draftKey, draftA, draftN, draftE]

/-- C8 counterexample: `insLo` is a cost insight with recomputed
`diff_pct = −30 < −10`, yet the synthesizer's output for
`[insHi, insLo]` contains no efficient-operation draft at all — the
cost draft was deduplicated away by `insHi`'s earlier positive draft with
the same `(eval_type, source_metric)` key, and a fortiori the claimed
"both drafts" never appear. -/
theorem claim_C8_counterexample :
    strContainsSub insLo.metric_name "비용" = true ∧
    insLo.current_value = some 70 ∧
    insLo.reference_avg = some 100 ∧
    (((70 : ℚ) - 100) / |(100 : ℚ)| * 100 < -10) ∧
    (generate_eval_drafts [insHi, insLo] []).filter
      (fun d => d.text.isCostEfficient) = [] := by
  refine ⟨by decide, rfl, rfl, by norm_num, ?_⟩
  rw [genHiLo_eval]
  simp [draftA, draftN, DraftText.isCostEfficient]

theorem claim_C8_witness :
    ({ eval_type := .positive,
       text := .posCostEfficient |((70 : ℚ) - 100) / |(100 : ℚ)| * 100|,
       source_metric := insLo.metric_name } : EvalDraft) ∈ draftsForInsight insLo ∧
    (∀ d ∈ draftsForInsight insLo, d.text.fromOver15Rule = false) :=
  claim_C8_cost_rule insLo 70 100 rfl rfl (by norm_num) (by decide) (by norm_num)

theorem claim_C9_witness :
    (generate_eval_drafts [insHi, insLo] []).filter
      (fun x => decide (draftKey x = (EvalType.positive, "관객당 비용"))) =
      [draftA] := by
  apply (claim_C9_eval_dedup [insHi, insLo] [] EvalType.positive "관객당 비용").2
    draftA [draftE]
  rw [candHiLo_eval]
  simp [draftKey, draftA, draftN, draftE]

end ExhibitRef
